import Mathlib

/-
Verification of the NeMo inverse-text-normalization tokenize-and-classify
grammar constructors, as implemented in
  nemo_text_processing/inverse_text_normalization/en/taggers/tokenize_and_classify.py
  nemo_text_processing/inverse_text_normalization/ru/taggers/tokenize_and_classify.py

The pynini FST expressions built by the constructors are embedded as a
syntax tree `Fst` whose constructors mirror the pynini operations the
source uses.  The leaf class grammars (CardinalFst, DateFst, ...) live in
modules that are not part of the verified sources, so they are opaque
atoms `Fst.base name`.  Python dictionaries are association lists with
first-match lookup; weights are rationals (every weight literal in the
source is an exact decimal).
-/

namespace NemoITN

abbrev Weight := ℚ

abbrev BoolDict := List (String × Bool)

abbrev WeightDict := List (String × Weight)

/-- First-match lookup in an association list, the semantics of a Python
dictionary access with unique keys. -/
def dictGet {α : Type} (k : String) : List (String × α) → Option α
  | [] => none
  | kv :: rest => if k = kv.1 then some kv.2 else dictGet k rest

/-- Syntax of the pynini expressions the two constructors build.  `base`
is an opaque leaf grammar imported from a tagger module, `emptyFst` is
`pynini.string_map([])`, `ins`/`deleteSpace`/`deleteExtraSpace` are
`pynutil.insert`, `delete_space` and `delete_extra_space`, and the rest
are `pynutil.add_weight`, `|`, `+`, `pynini.closure` and `.optimize()`. -/
inductive Fst where
  | base (name : String)
  | emptyFst
  | ins (s : String)
  | deleteSpace
  | deleteExtraSpace
  | addWeight (g : Fst) (w : Weight)
  | union (a b : Fst)
  | concat (a b : Fst)
  | closure (g : Fst)
  | optimize (g : Fst)
  deriving DecidableEq

/-- The `classes` list of known semiotic class names, in source order. -/
def classes : List String :=
  ["cardinal", "ordinal", "decimal", "measure", "date", "word",
   "time", "money", "whitelist", "electronic", "telephone"]

/-- The `default_class_weights` table, in source order. -/
def defaultClassWeights : WeightDict :=
  [("cardinal", 1.1), ("ordinal", 1.1), ("decimal", 1.1), ("measure", 1.1),
   ("date", 1.09), ("word", 100), ("time", 1.1), ("money", 1.1),
   ("electronic", 1.1), ("telephone", 1.1), ("whitelist", 1.01)]

/-- One step of the default-filling loop: add the entry if the key is
absent (Python dictionary insertion appends a fresh key at the end). -/
def fillStep (cw : WeightDict) (kv : String × Weight) : WeightDict :=
  if (dictGet kv.1 cw).isSome then cw else cw ++ [kv]

/-- The loop `for _class, weight in default_class_weights.items(): if
_class not in class_weights: class_weights[_class] = weight`. -/
def fillGo (cw : WeightDict) : WeightDict → WeightDict
  | [] => cw
  | kv :: rest => fillGo (fillStep cw kv) rest

def fillDefaults (cw : WeightDict) : WeightDict :=
  fillGo cw defaultClassWeights

/-- The exclusion loop: for every class graph whose name is mapped to
true in `excluded_classes` (with `.get(_class, False)` semantics), replace
the graph by the empty fst; all other entries pass through unchanged. -/
def applyExclusion (ec : BoolDict) (gs : List (String × Fst)) : List (String × Fst) :=
  gs.map (fun kv => (kv.1, if (dictGet kv.1 ec).getD false = true then Fst.emptyFst else kv.2))

/-- The `class_graphs` dictionary of the en constructor, in source order;
the leaf tagger grammars are opaque atoms. -/
def classGraphsEn : List (String × Fst) :=
  [("cardinal", .base "cardinal"), ("ordinal", .base "ordinal"),
   ("decimal", .base "decimal"), ("measure", .base "measure"),
   ("date", .base "date"), ("word", .base "word"), ("time", .base "time"),
   ("money", .base "money"), ("electronic", .base "electronic"),
   ("telephone", .base "telephone"), ("whitelist", .base "whitelist")]

/-- The `class_graphs` dictionary of the ru constructor.  The ru tagger
grammars are built from the forward-direction (text-normalization)
grammars; those modules are outside the verified sources, so each is an
opaque atom.  `word` and `punct` are imported from the en taggers. -/
def classGraphsRu : List (String × Fst) :=
  [("cardinal", .base "ru cardinal"), ("ordinal", .base "ru ordinal"),
   ("decimal", .base "ru decimal"), ("measure", .base "ru measure"),
   ("date", .base "ru date"), ("word", .base "word"), ("time", .base "ru time"),
   ("money", .base "ru money"), ("electronic", .base "ru electronic"),
   ("telephone", .base "ru telephone"), ("whitelist", .base "ru whitelist")]

/-- `class_graphs[c]` after the exclusion loop (every key of the class
graph dictionaries is present, so the default is never reached). -/
def gOf (gs : List (String × Fst)) (ec : BoolDict) (c : String) : Fst :=
  (dictGet c (applyExclusion ec gs)).getD Fst.emptyFst

/-- `class_weights[_class]` after the default-filling loop. -/
def wtOf (cw : WeightDict) (c : String) : Weight :=
  (dictGet c (fillDefaults cw)).getD 0

/-- The intermediate expressions the constructor binds, plus the final
`self.fst`. -/
structure BuildResult where
  classify : Fst
  punct : Fst
  token : Fst
  tokenPlusPunct : Fst
  fst : Fst
  deriving DecidableEq

/-- The grammar assembly shared by the en and ru constructors, taking the
per-class graph and weight accessors and the separator used between
tokens (`delete_extra_space` for en, `pynutil.add_weight(delete_extra_space, 1.1)`
for ru). -/
def buildCore (g : String → Fst) (wt : String → Weight) (separator : Fst) : BuildResult :=
  let classify : Fst :=
    .union (.union (.union (.union (.union (.union (.union (.union (.union (.union
      (.addWeight (g "whitelist") (wt "whitelist"))
      (.addWeight (g "time") (wt "time")))
      (.addWeight (g "date") (wt "date")))
      (.addWeight (g "decimal") (wt "decimal")))
      (.addWeight (g "measure") (wt "measure")))
      (.addWeight (g "cardinal") (wt "cardinal")))
      (.addWeight (g "ordinal") (wt "ordinal")))
      (.addWeight (g "money") (wt "money")))
      (.addWeight (g "telephone") (wt "telephone")))
      (.addWeight (g "electronic") (wt "electronic")))
      (.addWeight (g "word") (wt "word"))
  let punct : Fst :=
    .concat (.concat (.ins "tokens \x7b ") (.addWeight (.base "punct") 1.1)) (.ins " \x7d")
  let token : Fst := .concat (.concat (.ins "tokens \x7b ") classify) (.ins " \x7d")
  let tokenPlusPunct : Fst :=
    .concat (.concat (.closure (.concat punct (.ins " "))) token)
      (.closure (.concat (.ins " ") punct))
  let graph : Fst := .concat tokenPlusPunct (.closure (.concat separator tokenPlusPunct))
  let graph2 : Fst := .concat (.concat .deleteSpace graph) .deleteSpace
  ⟨classify, punct, token, tokenPlusPunct, .optimize graph2⟩

/-- The grammar built by the en constructor on its build path. -/
def buildEn (ec : BoolDict) (cw : WeightDict) : BuildResult :=
  buildCore (fun c => gOf classGraphsEn ec c) (fun c => wtOf cw c) .deleteExtraSpace

/-- The grammar built by the ru constructor on its build path. -/
def buildRu (ec : BoolDict) (cw : WeightDict) : BuildResult :=
  buildCore (fun c => gOf classGraphsRu ec c) (fun c => wtOf cw c)
    (.addWeight .deleteExtraSpace 1.1)

/-- State of the cache artifact at the far path: absent, present but
undeserializable, or present and holding a stored grammar. -/
inductive Artifact where
  | missing
  | corrupt
  | stored (g : Fst)
  deriving DecidableEq

/-- The far path of the en constructor: `None` unless a usable cache
directory was given, else `os.path.join(cache_dir, "_en_itn.far")`. -/
def farFileEn (cacheDir : Option String) : Option String :=
  match cacheDir with
  | some d => if d ≠ "None" then some (d ++ "/_en_itn.far") else none
  | none => none

/-- The far path of the ru constructor. -/
def farFileRu (cacheDir : Option String) : Option String :=
  match cacheDir with
  | some d => if d ≠ "None" then some (d ++ "/_ru_itn.far") else none
  | none => none

/-- The en constructor around its cache logic: if the cache is enabled,
`overwrite_cache` is false and the far file exists, the stored grammar is
read back with no corruption handling (`pynini.Far` raises on an
undeserializable archive); otherwise the grammar is built and, when the
cache is enabled, stored at the far path.  Returns the resulting
`self.fst` and the artifact state after the call. -/
def initEn (cacheDir : Option String) (overwriteCache : Bool) (ec : BoolDict)
    (cw : WeightDict) (art : Artifact) : Except String (Fst × Artifact) :=
  if overwriteCache = false ∧ (farFileEn cacheDir).isSome = true ∧ art ≠ Artifact.missing then
    match art with
    | .stored g => .ok (g, art)
    | _ => .error "failed to deserialize far archive"
  else
    let b := buildEn ec cw
    .ok (b.fst, if (farFileEn cacheDir).isSome then .stored b.fst else art)

/-- The keyword arguments the ru constructor passes to the embedded
forward-direction `text_normalization.ru` ClassifyFst. -/
structure TNArgs where
  inputCase : String
  deterministic : Bool
  cacheDir : Option String
  overwriteCache : Bool
  deriving DecidableEq

/-- `TNClassifyFst(input_case="cased", deterministic=False, cache_dir=cache_dir, overwrite_cache=True)`
as called on the ru build path. -/
def ruTnArgs (cacheDir : Option String) : TNArgs :=
  ⟨"cased", false, cacheDir, true⟩

/-- Modelled from the spec: the cache behavior of the forward-direction
`text_normalization.ru` ClassifyFst constructor, which is not among the
verified sources.  Per the spec, `overwrite=true` forces a rebuild and
re-store even if a valid cached entry exists, otherwise a valid entry is
served from cache.  Returns (grammar was rebuilt, artifact was written). -/
def tnCacheEffect (args : TNArgs) (artifactValid : Bool) : Bool × Bool :=
  if args.overwriteCache || !artifactValid then (true, args.cacheDir.isSome)
  else (false, false)

/-- The ru constructor around its cache logic, additionally reporting the
arguments of the embedded forward-direction constructor call (`none` when
the cached grammar was served and the call never happens). -/
def initRu (cacheDir : Option String) (overwriteCache : Bool) (ec : BoolDict)
    (cw : WeightDict) (art : Artifact) : Except String (Fst × Artifact × Option TNArgs) :=
  if overwriteCache = false ∧ (farFileRu cacheDir).isSome = true ∧ art ≠ Artifact.missing then
    match art with
    | .stored g => .ok (g, art, none)
    | _ => .error "failed to deserialize far archive"
  else
    let b := buildRu ec cw
    .ok (b.fst, (if (farFileRu cacheDir).isSome then .stored b.fst else art),
      some (ruTnArgs cacheDir))

/-- The diagnostic of the exclusion loop for an unknown class name. -/
def exclusionLogMsg (c : String) : String :=
  "The class " ++ c ++ " is not being excluded as the class does not exist."

/-- Diagnostics of `for excluded_class in excluded_classes: if excluded_class not in classes: logging.info(...)`. -/
def unknownExclusionLogs (ec : BoolDict) : List String :=
  (ec.map Prod.fst).filterMap
    (fun c => if c ∈ classes then none else some (exclusionLogMsg c))

/-- The diagnostic of the class-weight loop for an unknown class name. -/
def weightLogMsg (c : String) : String :=
  "The class " ++ c ++
    " does not have a custom class weight applied to it as the class does not exist."

/-- Diagnostics of the class-weight loop, which runs after the defaults
have been filled in. -/
def unknownWeightLogs (cw : WeightDict) : List String :=
  ((fillDefaults cw).map Prod.fst).filterMap
    (fun c => if c ∈ classes then none else some (weightLogMsg c))

/-- Flattens the left-nested `|` alternation into its operand list. -/
def unionComponents : Fst → List Fst
  | .union a b => unionComponents a ++ [b]
  | f => [f]

/-- Reads the class name and weight shift off one alternation operand. -/
def componentInfo : Fst → Option (String × Weight)
  | .addWeight (.base n) w => some (n, w)
  | _ => none

/-- The (class name, weight shift) list of the top-level alternation, in
operand order. -/
def classComponents (f : Fst) : List (String × Weight) :=
  (unionComponents f).filterMap componentInfo

/-- Modelled from the spec: shortest-path selection over the top-level
alternation (pynini shortest path itself is not among the verified
sources).  Given candidate classes with their total path weights in
alternation order, the minimum total weight wins and an exact tie is won
by the earlier operand. -/
def bestMerge (c : String × Weight) : Option (String × Weight) → Option (String × Weight)
  | none => some c
  | some b => if b.2 < c.2 then some b else some c

def bestClass : List (String × Weight) → Option (String × Weight)
  | [] => none
  | c :: rest => bestMerge c (bestClass rest)

/-- The class enumeration order of the top-level alternation. -/
def classifyOrder : List String :=
  ["whitelist", "time", "date", "decimal", "measure", "cardinal",
   "ordinal", "money", "telephone", "electronic", "word"]

theorem dictGet_append {α : Type} (k : String) (l₁ l₂ : List (String × α)) :
    dictGet k (l₁ ++ l₂) = (dictGet k l₁).or (dictGet k l₂) := by
  induction l₁ with
  | nil => simp [dictGet]
  | cons kv rest ih =>
    by_cases h : k = kv.1
    · simp [dictGet, h]
    · simp [dictGet, h, ih]

theorem dictGet_applyExclusion (ec : BoolDict) (gs : List (String × Fst)) (c : String) :
    dictGet c (applyExclusion ec gs) =
      (dictGet c gs).map
        (fun g => if (dictGet c ec).getD false = true then Fst.emptyFst else g) := by
  induction gs with
  | nil => simp [applyExclusion, dictGet]
  | cons kv rest ih =>
    by_cases h : c = kv.1
    · subst h; simp [applyExclusion, dictGet]
    · simp only [applyExclusion, List.map_cons] at ih ⊢
      simp [dictGet, h, ih]

theorem dictGet_filter {α : Type} (p : String → Bool) (l : List (String × α))
    (k : String) (hk : p k = true) :
    dictGet k (l.filter (fun kv => p kv.1)) = dictGet k l := by
  induction l with
  | nil => simp
  | cons kv rest ih =>
    by_cases h : k = kv.1
    · have : p kv.1 = true := h ▸ hk
      simp [dictGet, List.filter, this, h]
    · cases hp : p kv.1 <;> simp [dictGet, List.filter, hp, h, ih]

theorem dictGet_filter_classes {α : Type} (l : List (String × α)) (c : String)
    (hc : c ∈ classes) :
    dictGet c (l.filter (fun kv => decide (kv.1 ∈ classes))) = dictGet c l :=
  dictGet_filter (fun s => decide (s ∈ classes)) l c (decide_eq_true hc)

theorem dictGet_isSome_of_mem {α : Type} {kv : String × α} {l : List (String × α)}
    (h : kv ∈ l) : (dictGet kv.1 l).isSome = true := by
  induction l with
  | nil => simp at h
  | cons hd rest ih =>
    rcases List.mem_cons.mp h with h | h
    · subst h; simp [dictGet]
    · by_cases he : kv.1 = hd.1
      · simp [dictGet, he]
      · simp [dictGet, he, ih h]

theorem dictGet_fillStep (k : String) (cw : WeightDict) (kv : String × Weight) :
    dictGet k (fillStep cw kv) =
      (dictGet k cw).or (if k = kv.1 then some kv.2 else none) := by
  unfold fillStep
  by_cases hs : (dictGet kv.1 cw).isSome = true
  · rw [if_pos hs]
    by_cases h : k = kv.1
    · rw [if_pos h, h]
      cases hv : dictGet kv.1 cw with
      | none => rw [hv] at hs; simp at hs
      | some v => simp [hv, Option.or]
    · cases hv : dictGet k cw <;> simp [h, hv, Option.or]
  · rw [if_neg hs]
    rw [dictGet_append]
    by_cases h : k = kv.1 <;> simp [dictGet, h]

theorem dictGet_fillGo (k : String) (ds : WeightDict) :
    ∀ cw : WeightDict, dictGet k (fillGo cw ds) = (dictGet k cw).or (dictGet k ds) := by
  induction ds with
  | nil => intro cw; simp [fillGo, dictGet]
  | cons kv rest ih =>
    intro cw
    show dictGet k (fillGo (fillStep cw kv) rest) = _
    rw [ih, dictGet_fillStep]
    by_cases h : k = kv.1
    · cases hv : dictGet k cw <;> simp [dictGet, h, hv, Option.or]
    · cases hv : dictGet k cw <;> simp [dictGet, h, hv, Option.or]

theorem dictGet_fillDefaults (k : String) (cw : WeightDict) :
    dictGet k (fillDefaults cw) = (dictGet k cw).or (dictGet k defaultClassWeights) :=
  dictGet_fillGo k defaultClassWeights cw

theorem fillGo_fixed (ds : WeightDict) :
    ∀ cw : WeightDict, (∀ kv ∈ ds, (dictGet kv.1 cw).isSome = true) → fillGo cw ds = cw := by
  induction ds with
  | nil => intro cw _; rfl
  | cons kv rest ih =>
    intro cw h
    have h1 : fillStep cw kv = cw := by
      unfold fillStep
      rw [if_pos (h kv (List.mem_cons_self kv rest))]
    show fillGo (fillStep cw kv) rest = cw
    rw [h1]
    exact ih cw (fun kv' h' => h kv' (List.mem_cons_of_mem kv h'))

theorem fill_idem (cw : WeightDict) : fillDefaults (fillDefaults cw) = fillDefaults cw := by
  unfold fillDefaults
  apply fillGo_fixed
  intro kv hkv
  rw [dictGet_fillGo]
  have hd : (dictGet kv.1 defaultClassWeights).isSome = true := dictGet_isSome_of_mem hkv
  cases hv : dictGet kv.1 cw with
  | none => simpa [Option.or, hv] using hd
  | some v => simp [Option.or, hv]

theorem keys_fillGo (k : String) (ds : WeightDict) :
    ∀ cw : WeightDict, k ∈ cw.map Prod.fst → k ∈ (fillGo cw ds).map Prod.fst := by
  induction ds with
  | nil => intro cw h; exact h
  | cons kv rest ih =>
    intro cw h
    refine ih (fillStep cw kv) ?_
    unfold fillStep
    by_cases hs : (dictGet kv.1 cw).isSome = true
    · rw [if_pos hs]; exact h
    · rw [if_neg hs]; simp only [List.map_append]; exact List.mem_append_left _ h

theorem gOf_spec (gs : List (String × Fst)) (ec : BoolDict) (c : String) :
    gOf gs ec c =
      ((dictGet c gs).map
        (fun g => if (dictGet c ec).getD false = true then Fst.emptyFst else g)).getD
        Fst.emptyFst := by
  unfold gOf
  rw [dictGet_applyExclusion]

theorem wtOf_spec (cw : WeightDict) (c : String) :
    wtOf cw c = ((dictGet c cw).or (dictGet c defaultClassWeights)).getD 0 := by
  unfold wtOf
  rw [dictGet_fillDefaults]

theorem buildCore_congr (g₁ g₂ : String → Fst) (w₁ w₂ : String → Weight) (sep : Fst)
    (hg : ∀ c ∈ classifyOrder, g₁ c = g₂ c) (hw : ∀ c ∈ classifyOrder, w₁ c = w₂ c) :
    buildCore g₁ w₁ sep = buildCore g₂ w₂ sep := by
  unfold buildCore
  rw [hg "whitelist" (by decide), hg "time" (by decide), hg "date" (by decide),
    hg "decimal" (by decide), hg "measure" (by decide), hg "cardinal" (by decide),
    hg "ordinal" (by decide), hg "money" (by decide), hg "telephone" (by decide),
    hg "electronic" (by decide), hg "word" (by decide),
    hw "whitelist" (by decide), hw "time" (by decide), hw "date" (by decide),
    hw "decimal" (by decide), hw "measure" (by decide), hw "cardinal" (by decide),
    hw "ordinal" (by decide), hw "money" (by decide), hw "telephone" (by decide),
    hw "electronic" (by decide), hw "word" (by decide)]

theorem bestClass_mem : ∀ {l : List (String × Weight)} {b : String × Weight},
    bestClass l = some b → b ∈ l := by
  intro l
  induction l with
  | nil => intro b h; simp [bestClass] at h
  | cons c rest ih =>
    intro b h
    cases hr : bestClass rest with
    | none =>
      simp only [bestClass, hr, bestMerge, Option.some.injEq] at h
      exact h ▸ List.mem_cons_self c rest
    | some b' =>
      simp only [bestClass, hr, bestMerge] at h
      by_cases hlt : b'.2 < c.2
      · rw [if_pos hlt] at h
        injection h with h
        exact h ▸ List.mem_cons_of_mem c (ih hr)
      · rw [if_neg hlt] at h
        injection h with h
        exact h ▸ List.mem_cons_self c rest

theorem bestClass_first_min :
    ∀ (l : List (String × Weight)) (i : Nat) (hi : i < l.length),
      (∀ j (hj : j < i), (l.get ⟨i, hi⟩).2 < (l.get ⟨j, Nat.lt_trans hj hi⟩).2) →
      (∀ j (hj : j < l.length), (l.get ⟨i, hi⟩).2 ≤ (l.get ⟨j, hj⟩).2) →
      bestClass l = some (l.get ⟨i, hi⟩) := by
  intro l
  induction l with
  | nil => intro i hi; exact absurd hi (Nat.not_lt_zero i)
  | cons c rest ih =>
    intro i hi hstrict hle
    cases i with
    | zero =>
      cases hr : bestClass rest with
      | none =>
        show bestMerge c (bestClass rest) = _
        rw [hr]
        rfl
      | some b =>
        have hb : b ∈ rest := bestClass_mem hr
        obtain ⟨⟨k, hk⟩, hbk⟩ := List.mem_iff_get.mp hb
        have hcb : c.2 ≤ b.2 := by
          have h := hle (k + 1) (Nat.succ_lt_succ hk)
          rw [show (c :: rest).get ⟨k + 1, Nat.succ_lt_succ hk⟩ = rest.get ⟨k, hk⟩ from rfl,
            hbk] at h
          exact h
        show bestMerge c (bestClass rest) = _
        rw [hr]
        show (if b.2 < c.2 then some b else some c) = _
        rw [if_neg (not_lt.mpr hcb)]
        rfl
    | succ n =>
      have hn : n < rest.length := by simpa using hi
      have hb : bestClass rest = some (rest.get ⟨n, hn⟩) := by
        apply ih n hn
        · intro j hj
          have h := hstrict (j + 1) (by omega)
          exact h
        · intro j hj
          have h := hle (j + 1) (Nat.succ_lt_succ hj)
          exact h
      have hcs : (rest.get ⟨n, hn⟩).2 < c.2 := by
        have h := hstrict 0 (Nat.succ_pos n)
        exact h
      show bestMerge c (bestClass rest) = _
      rw [hb]
      show (if (rest.get ⟨n, hn⟩).2 < c.2 then some (rest.get ⟨n, hn⟩) else some c) = _
      rw [if_pos hcs]
      rfl

theorem order_sub (c : String) (hc : c ∈ classifyOrder) : c ∈ classes := by
  simp only [classifyOrder] at hc
  fin_cases hc <;> decide

theorem or_some_getD (x : Option Weight) (v : Weight) : (x.or (some v)).getD 0 = x.getD v := by
  cases x <;> simp [Option.or]

/-- Claim C3: for every class name mapped to true in `excluded_classes`,
the exclusion filter replaces that class automaton with the empty-language
automaton before the top-level union is formed, and every class graph
whose name is absent or mapped to false passes through unchanged: the
filtered entry for `c` is the original entry with the empty fst
substituted exactly when the exclusion lookup (with default false) yields
true, and the union is formed from the filtered graphs. -/
theorem claim_C3 (ec : BoolDict) (c : String) :
    dictGet c (applyExclusion ec classGraphsEn) =
      (dictGet c classGraphsEn).map
        (fun g => if (dictGet c ec).getD false = true then Fst.emptyFst else g) ∧
    dictGet c (applyExclusion ec classGraphsRu) =
      (dictGet c classGraphsRu).map
        (fun g => if (dictGet c ec).getD false = true then Fst.emptyFst else g) ∧
    ∀ cw : WeightDict,
      unionComponents ((buildEn ec cw).classify) =
        classifyOrder.map
          (fun n => Fst.addWeight ((dictGet n (applyExclusion ec classGraphsEn)).getD
            Fst.emptyFst) (wtOf cw n)) :=
  ⟨dictGet_applyExclusion ec classGraphsEn c,
   dictGet_applyExclusion ec classGraphsRu c,
   fun _ => rfl⟩

/-- Claim C5 counterexample: with `class_weights` containing the key
`punctuation` mapped to 5, the punctuation grammar of the built token is
still shifted by the hard-coded 1.1, not by 5. -/
theorem claim_C5_counterexample :
    (buildEn [] [("punctuation", (5 : Weight))]).punct =
      .concat (.concat (.ins "tokens \x7b ") (.addWeight (.base "punct") (1.1 : Weight)))
        (.ins " \x7d") ∧
    (1.1 : Weight) ≠ (5 : Weight) :=
  ⟨rfl, by norm_num⟩

/-- Claim C5 (amended): the weight shift applied to the punctuation
grammar is the constant 1.1 regardless of `class_weights`, and
`punctuation` is not among the known classes, so a caller-supplied
punctuation entry never reaches the grammar. -/
theorem claim_C5_amended (ec : BoolDict) (cw : WeightDict) :
    (buildEn ec cw).punct =
      .concat (.concat (.ins "tokens \x7b ") (.addWeight (.base "punct") (1.1 : Weight)))
        (.ins " \x7d") ∧
    (buildRu ec cw).punct =
      .concat (.concat (.ins "tokens \x7b ") (.addWeight (.base "punct") (1.1 : Weight)))
        (.ins " \x7d") ∧
    "punctuation" ∉ classes :=
  ⟨rfl, rfl, by decide⟩

/-- Claim C8: the sentence grammar is assembled exactly as
`token = insert("tokens \x7b ") + classify + insert(" \x7d")`,
`token_plus_punct = closure(punct + insert(" ")) + token + closure(insert(" ") + punct)`,
then leading-space deletion, `token_plus_punct`, a closure of the
extra-space-collapsing separator followed by `token_plus_punct` (the ru
separator carries the weight shift 1.1), trailing-space deletion, and the
result is optimized. -/
theorem claim_C8 (ec : BoolDict) (cw : WeightDict) :
    (buildEn ec cw).token =
      .concat (.concat (.ins "tokens \x7b ") (buildEn ec cw).classify) (.ins " \x7d") ∧
    (buildEn ec cw).tokenPlusPunct =
      .concat
        (.concat (.closure (.concat (buildEn ec cw).punct (.ins " ")))
          ((buildEn ec cw).token))
        (.closure (.concat (.ins " ") (buildEn ec cw).punct)) ∧
    (buildEn ec cw).fst =
      .optimize (.concat
        (.concat .deleteSpace
          (.concat (buildEn ec cw).tokenPlusPunct
            (.closure (.concat .deleteExtraSpace (buildEn ec cw).tokenPlusPunct))))
        .deleteSpace) ∧
    (buildRu ec cw).token =
      .concat (.concat (.ins "tokens \x7b ") (buildRu ec cw).classify) (.ins " \x7d") ∧
    (buildRu ec cw).tokenPlusPunct =
      .concat
        (.concat (.closure (.concat (buildRu ec cw).punct (.ins " ")))
          ((buildRu ec cw).token))
        (.closure (.concat (.ins " ") (buildRu ec cw).punct)) ∧
    (buildRu ec cw).fst =
      .optimize (.concat
        (.concat .deleteSpace
          (.concat (buildRu ec cw).tokenPlusPunct
            (.closure (.concat (.addWeight .deleteExtraSpace (1.1 : Weight))
              (buildRu ec cw).tokenPlusPunct))))
        .deleteSpace) :=
  ⟨rfl, rfl, rfl, rfl, rfl, rfl⟩

/-- Claim C2: the top-level alternation is taken in exactly the order
whitelist, time, date, decimal, measure, cardinal, ordinal, money,
telephone, electronic, word (for en and for ru), and under the
shortest-path selection modelled from the spec, when two classes tie at
the minimal total path weight the earlier-listed class wins: for any
candidate list of per-class total path weights in alternation order, if
positions `i < j` carry equal weights that are strictly below every other
candidate, the selection returns the candidate at position `i`. -/
theorem claim_C2 (cw : WeightDict) :
    unionComponents ((buildEn [] cw).classify) =
      [.addWeight (.base "whitelist") (wtOf cw "whitelist"),
       .addWeight (.base "time") (wtOf cw "time"),
       .addWeight (.base "date") (wtOf cw "date"),
       .addWeight (.base "decimal") (wtOf cw "decimal"),
       .addWeight (.base "measure") (wtOf cw "measure"),
       .addWeight (.base "cardinal") (wtOf cw "cardinal"),
       .addWeight (.base "ordinal") (wtOf cw "ordinal"),
       .addWeight (.base "money") (wtOf cw "money"),
       .addWeight (.base "telephone") (wtOf cw "telephone"),
       .addWeight (.base "electronic") (wtOf cw "electronic"),
       .addWeight (.base "word") (wtOf cw "word")] ∧
    unionComponents ((buildRu [] cw).classify) =
      [.addWeight (.base "ru whitelist") (wtOf cw "whitelist"),
       .addWeight (.base "ru time") (wtOf cw "time"),
       .addWeight (.base "ru date") (wtOf cw "date"),
       .addWeight (.base "ru decimal") (wtOf cw "decimal"),
       .addWeight (.base "ru measure") (wtOf cw "measure"),
       .addWeight (.base "ru cardinal") (wtOf cw "cardinal"),
       .addWeight (.base "ru ordinal") (wtOf cw "ordinal"),
       .addWeight (.base "ru money") (wtOf cw "money"),
       .addWeight (.base "ru telephone") (wtOf cw "telephone"),
       .addWeight (.base "ru electronic") (wtOf cw "electronic"),
       .addWeight (.base "word") (wtOf cw "word")] ∧
    ∀ (l : List (String × Weight)) (i j : Nat) (hj : j < l.length) (hij : i < j),
      (l.get ⟨i, Nat.lt_trans hij hj⟩).2 = (l.get ⟨j, hj⟩).2 →
      (∀ k (hk : k < l.length), k ≠ i → k ≠ j →
        (l.get ⟨i, Nat.lt_trans hij hj⟩).2 < (l.get ⟨k, hk⟩).2) →
      bestClass l = some (l.get ⟨i, Nat.lt_trans hij hj⟩) := by
  refine ⟨rfl, rfl, ?_⟩
  intro l i j hj hij heq hmin
  apply bestClass_first_min l i (Nat.lt_trans hij hj)
  · intro q hq
    exact hmin q (Nat.lt_trans hq (Nat.lt_trans hij hj)) (Nat.ne_of_lt hq)
      (Nat.ne_of_lt (Nat.lt_trans hq hij))
  · intro q hq
    by_cases hqi : q = i
    · subst hqi; exact le_refl _
    · by_cases hqj : q = j
      · subst hqj; exact le_of_eq heq
      · exact le_of_lt (hmin q hq hqi hqj)

/-- Claim C2 witness: with caller weights giving `time` and `date` the
equal minimal total 1 and every other class strictly heavier, the
selection returns `time`, the earlier-listed of the two. -/
theorem claim_C2_witness :
    bestClass [("time", (1 : Weight)), ("date", (1 : Weight)), ("word", (100 : Weight))] =
      some ("time", (1 : Weight)) := by
  have h := (claim_C2 []).2.2
    [("time", (1 : Weight)), ("date", (1 : Weight)), ("word", (100 : Weight))]
    0 1 (by decide) (by decide) (by decide) (by decide)
  exact h.trans (by decide)

set_option maxHeartbeats 1000000 in
theorem classComponents_buildEn (cw : WeightDict) :
    classComponents ((buildEn [] cw).classify) =
      [("whitelist", wtOf cw "whitelist"), ("time", wtOf cw "time"),
       ("date", wtOf cw "date"), ("decimal", wtOf cw "decimal"),
       ("measure", wtOf cw "measure"), ("cardinal", wtOf cw "cardinal"),
       ("ordinal", wtOf cw "ordinal"), ("money", wtOf cw "money"),
       ("telephone", wtOf cw "telephone"), ("electronic", wtOf cw "electronic"),
       ("word", wtOf cw "word")] := rfl

set_option maxHeartbeats 1600000 in
/-- Claim C4: for each of the eleven classify classes, the additive
weight shift carried by that class in the top-level alternation equals
the caller-supplied `class_weights` entry when present, and otherwise the
default table value (cardinal 1.1, ordinal 1.1, decimal 1.1, measure 1.1,
date 1.09, time 1.1, money 1.1, electronic 1.1, telephone 1.1,
whitelist 1.01, word 100). -/
theorem claim_C4 (cw : WeightDict) (c : String) (hc : c ∈ classes) :
    dictGet c (classComponents ((buildEn [] cw).classify)) =
      some ((dictGet c cw).getD
        (match c with
         | "cardinal" => (1.1 : Weight)
         | "ordinal" => 1.1
         | "decimal" => 1.1
         | "measure" => 1.1
         | "date" => 1.09
         | "time" => 1.1
         | "money" => 1.1
         | "electronic" => 1.1
         | "telephone" => 1.1
         | "whitelist" => 1.01
         | "word" => 100
         | _ => 0)) := by
  simp only [classes] at hc
  fin_cases hc
  · rewrite [classComponents_buildEn]
    simp [dictGet, wtOf_spec, or_some_getD,
      show dictGet "cardinal" defaultClassWeights = some ((1.1 : Weight)) from rfl]
  · rewrite [classComponents_buildEn]
    simp [dictGet, wtOf_spec, or_some_getD,
      show dictGet "ordinal" defaultClassWeights = some ((1.1 : Weight)) from rfl]
  · rewrite [classComponents_buildEn]
    simp [dictGet, wtOf_spec, or_some_getD,
      show dictGet "decimal" defaultClassWeights = some ((1.1 : Weight)) from rfl]
  · rewrite [classComponents_buildEn]
    simp [dictGet, wtOf_spec, or_some_getD,
      show dictGet "measure" defaultClassWeights = some ((1.1 : Weight)) from rfl]
  · rewrite [classComponents_buildEn]
    simp [dictGet, wtOf_spec, or_some_getD,
      show dictGet "date" defaultClassWeights = some ((1.09 : Weight)) from rfl]
  · rewrite [classComponents_buildEn]
    simp [dictGet, wtOf_spec, or_some_getD,
      show dictGet "word" defaultClassWeights = some ((100 : Weight)) from rfl]
  · rewrite [classComponents_buildEn]
    simp [dictGet, wtOf_spec, or_some_getD,
      show dictGet "time" defaultClassWeights = some ((1.1 : Weight)) from rfl]
  · rewrite [classComponents_buildEn]
    simp [dictGet, wtOf_spec, or_some_getD,
      show dictGet "money" defaultClassWeights = some ((1.1 : Weight)) from rfl]
  · rewrite [classComponents_buildEn]
    simp [dictGet, wtOf_spec, or_some_getD,
      show dictGet "whitelist" defaultClassWeights = some ((1.01 : Weight)) from rfl]
  · rewrite [classComponents_buildEn]
    simp [dictGet, wtOf_spec, or_some_getD,
      show dictGet "electronic" defaultClassWeights = some ((1.1 : Weight)) from rfl]
  · rewrite [classComponents_buildEn]
    simp [dictGet, wtOf_spec, or_some_getD,
      show dictGet "telephone" defaultClassWeights = some ((1.1 : Weight)) from rfl]

/-- Claim C4 witness: a caller-supplied `date` weight of 7 is the shift
carried by the date class. -/
theorem claim_C4_witness :
    dictGet "date" (classComponents ((buildEn [] [("date", (7 : Weight))]).classify)) =
      some 7 := by
  have h := claim_C4 [("date", (7 : Weight))] "date" (by decide)
  exact h.trans (by decide)

/-- Claim C9: when the caller passes a class-weight mapping, the
constructor fills the missing defaults into that same mapping: afterwards
every one of the eleven classes has an entry, entries that were present
are untouched, filling is idempotent, and a later build that reuses the
filled mapping builds the same grammar as the first build did. -/
theorem claim_C9 (cw : WeightDict) (c : String) (hc : c ∈ classes) :
    (dictGet c (fillDefaults cw)).isSome = true ∧
    (∀ w, dictGet c cw = some w → dictGet c (fillDefaults cw) = some w) ∧
    (dictGet c cw = none →
      dictGet c (fillDefaults cw) = dictGet c defaultClassWeights) ∧
    fillDefaults (fillDefaults cw) = fillDefaults cw ∧
    ∀ ec, buildEn ec (fillDefaults cw) = buildEn ec cw := by
  refine ⟨?_, ?_, ?_, fill_idem cw, ?_⟩
  · rw [dictGet_fillDefaults]
    have hd : (dictGet c defaultClassWeights).isSome = true := by
      simp only [classes] at hc
      fin_cases hc <;> decide
    cases hv : dictGet c cw with
    | none => simpa [Option.or, hv] using hd
    | some v => simp [Option.or, hv]
  · intro w hw
    rw [dictGet_fillDefaults, hw]
    simp [Option.or]
  · intro hw
    rw [dictGet_fillDefaults, hw]
    simp [Option.or]
  · intro ec
    unfold buildEn
    apply buildCore_congr
    · intro c' _
      rfl
    · intro c' _
      show wtOf (fillDefaults cw) c' = wtOf cw c'
      unfold wtOf fillDefaults
      rw [show fillGo (fillGo cw defaultClassWeights) defaultClassWeights =
        fillGo cw defaultClassWeights from fill_idem cw]

/-- Claim C9 witness: instantiation at the mapping containing only a date
entry and at the class `cardinal`. -/
theorem claim_C9_witness :
    (dictGet "cardinal" (fillDefaults [("date", (2 : Weight))])).isSome = true ∧
    (∀ w, dictGet "cardinal" [("date", (2 : Weight))] = some w →
      dictGet "cardinal" (fillDefaults [("date", (2 : Weight))]) = some w) ∧
    (dictGet "cardinal" [("date", (2 : Weight))] = none →
      dictGet "cardinal" (fillDefaults [("date", (2 : Weight))]) =
        dictGet "cardinal" defaultClassWeights) ∧
    fillDefaults (fillDefaults [("date", (2 : Weight))]) =
      fillDefaults [("date", (2 : Weight))] ∧
    ∀ ec, buildEn ec (fillDefaults [("date", (2 : Weight))]) =
      buildEn ec [("date", (2 : Weight))] :=
  claim_C9 [("date", (2 : Weight))] "cardinal" (by decide)

/-- Claim C7: an unknown key in `excluded_classes` or `class_weights` is
logged by the corresponding diagnostic loop and otherwise ignored: the
grammars built (en and ru) are identical to the ones built from the same
mappings restricted to the known class names, and construction is total. -/
theorem claim_C7 (ec : BoolDict) (cw : WeightDict) (k : String) (hu : k ∉ classes) :
    (k ∈ ec.map Prod.fst → exclusionLogMsg k ∈ unknownExclusionLogs ec) ∧
    (k ∈ cw.map Prod.fst → weightLogMsg k ∈ unknownWeightLogs cw) ∧
    buildEn ec cw =
      buildEn (ec.filter (fun kv => decide (kv.1 ∈ classes)))
        (cw.filter (fun kv => decide (kv.1 ∈ classes))) ∧
    buildRu ec cw =
      buildRu (ec.filter (fun kv => decide (kv.1 ∈ classes)))
        (cw.filter (fun kv => decide (kv.1 ∈ classes))) := by
  refine ⟨?_, ?_, ?_, ?_⟩
  · intro hk
    exact List.mem_filterMap.mpr ⟨k, hk, by simp [hu]⟩
  · intro hk
    exact List.mem_filterMap.mpr ⟨k, keys_fillGo k defaultClassWeights cw hk, by simp [hu]⟩
  · unfold buildEn
    apply buildCore_congr
    · intro c hc
      show gOf classGraphsEn ec c = gOf classGraphsEn (ec.filter _) c
      rw [gOf_spec, gOf_spec, dictGet_filter_classes ec c (order_sub c hc)]
    · intro c hc
      show wtOf cw c = wtOf (cw.filter _) c
      rw [wtOf_spec, wtOf_spec, dictGet_filter_classes cw c (order_sub c hc)]
  · unfold buildRu
    apply buildCore_congr
    · intro c hc
      show gOf classGraphsRu ec c = gOf classGraphsRu (ec.filter _) c
      rw [gOf_spec, gOf_spec, dictGet_filter_classes ec c (order_sub c hc)]
    · intro c hc
      show wtOf cw c = wtOf (cw.filter _) c
      rw [wtOf_spec, wtOf_spec, dictGet_filter_classes cw c (order_sub c hc)]

/-- Claim C7 witness: instantiation at mappings holding only the unknown
key `frobnicate`. -/
theorem claim_C7_witness :
    ("frobnicate" ∈ [("frobnicate", true)].map Prod.fst →
      exclusionLogMsg "frobnicate" ∈ unknownExclusionLogs [("frobnicate", true)]) ∧
    ("frobnicate" ∈ [("frobnicate", (2 : Weight))].map Prod.fst →
      weightLogMsg "frobnicate" ∈ unknownWeightLogs [("frobnicate", (2 : Weight))]) ∧
    buildEn [("frobnicate", true)] [("frobnicate", (2 : Weight))] =
      buildEn ([("frobnicate", true)].filter (fun kv => decide (kv.1 ∈ classes)))
        ([("frobnicate", (2 : Weight))].filter (fun kv => decide (kv.1 ∈ classes))) ∧
    buildRu [("frobnicate", true)] [("frobnicate", (2 : Weight))] =
      buildRu ([("frobnicate", true)].filter (fun kv => decide (kv.1 ∈ classes)))
        ([("frobnicate", (2 : Weight))].filter (fun kv => decide (kv.1 ∈ classes))) :=
  claim_C7 [("frobnicate", true)] [("frobnicate", (2 : Weight))] "frobnicate" (by decide)

/-- Claim C6 counterexample: with the cache enabled, `overwrite_cache`
false and the artifact present but corrupt, the constructor takes the
load path with no corruption handling, and the deserialization failure
propagates to the caller instead of being treated as a cache miss. -/
theorem claim_C6_counterexample :
    initEn (some "cache") false [] [] Artifact.corrupt =
      .error "failed to deserialize far archive" := rfl

/-- Claim C6 (amended): when the far file exists and `overwrite_cache` is
false, the load decision is made from existence alone: a corrupt artifact
makes construction raise the deserialization error (no rebuild), and only
a missing artifact leads to a rebuild and re-store. -/
theorem claim_C6_amended (cd : Option String) (ec : BoolDict) (cw : WeightDict)
    (hf : (farFileEn cd).isSome = true) :
    initEn cd false ec cw Artifact.corrupt = .error "failed to deserialize far archive" ∧
    initEn cd false ec cw Artifact.missing =
      .ok ((buildEn ec cw).fst, .stored (buildEn ec cw).fst) := by
  constructor
  · simp [initEn, hf]
  · simp [initEn, hf]

/-- Claim C6 amended witness: instantiation at the cache directory
`cache`. -/
theorem claim_C6_amended_witness :
    initEn (some "cache") false [] [] Artifact.corrupt =
      .error "failed to deserialize far archive" ∧
    initEn (some "cache") false [] [] Artifact.missing =
      .ok ((buildEn [] []).fst, .stored (buildEn [] []).fst) :=
  claim_C6_amended (some "cache") [] [] rfl

/-- Extracts the classify alternation back out of the final optimized
sentence grammar (the shape produced by the constructors). -/
def classifyOfFst : Fst → Fst
  | .optimize (.concat (.concat _
      (.concat (.concat (.concat _ (.concat (.concat _ cls) _)) _) _)) _) => cls
  | _ => .emptyFst

/-- Claim C1 counterexample: the far path depends only on the cache
directory and language, so a first run with default weights stores its
grammar at the slot, and a second run configured with a different date
weight loads and returns the first grammar even though the grammar it
would build differs. -/
theorem claim_C1_counterexample :
    initEn (some "cache") false [] [] Artifact.missing =
      .ok ((buildEn [] []).fst, .stored (buildEn [] []).fst) ∧
    initEn (some "cache") false [] [("date", (50 : Weight))]
        (.stored (buildEn [] []).fst) =
      .ok ((buildEn [] []).fst, .stored (buildEn [] []).fst) ∧
    (buildEn [] []).fst ≠ (buildEn [] [("date", (50 : Weight))]).fst := by
  refine ⟨rfl, rfl, ?_⟩
  intro h
  have h2 : (buildEn [] []).classify = (buildEn [] [("date", (50 : Weight))]).classify :=
    congrArg classifyOfFst h
  have h3 := congrArg (fun cls => dictGet "date" (classComponents cls)) h2
  simp only [] at h3
  rewrite [classComponents_buildEn, classComponents_buildEn] at h3
  simp [dictGet, wtOf_spec, defaultClassWeights, Option.or] at h3
  norm_num at h3

/-- Claim C1 (amended): the cache slot is `cache_dir/_en_itn.far`,
independent of `excluded_classes` and `class_weights`; under
`overwrite_cache = false` an existing stored artifact is loaded and
returned whatever the current configuration is, so two differently
configured constructor calls share the same cache entry. -/
theorem claim_C1_amended (cd : Option String) (ec₁ ec₂ : BoolDict)
    (cw₁ cw₂ : WeightDict) (g : Fst) (hf : (farFileEn cd).isSome = true) :
    initEn cd false ec₁ cw₁ (.stored g) = .ok (g, .stored g) ∧
    initEn cd false ec₂ cw₂ (.stored g) = .ok (g, .stored g) := by
  constructor
  · simp [initEn, hf]
  · simp [initEn, hf]

/-- Claim C1 amended witness: two differently configured calls both load
the same stored grammar from the shared slot. -/
theorem claim_C1_amended_witness :
    initEn (some "cache") false [] [] (.stored Fst.emptyFst) =
      .ok (Fst.emptyFst, .stored Fst.emptyFst) ∧
    initEn (some "cache") false [("date", true)] [("date", (50 : Weight))]
        (.stored Fst.emptyFst) =
      .ok (Fst.emptyFst, .stored Fst.emptyFst) :=
  claim_C1_amended (some "cache") [] [("date", true)] [] [("date", (50 : Weight))]
    Fst.emptyFst rfl

/-- Claim C10: whenever the ru constructor takes the build path (cache
disabled, far file missing, or `overwrite_cache` true), it constructs the
embedded forward-direction grammar with `input_case = cased`,
`deterministic = false`, the same `cache_dir`, and `overwrite_cache`
forced to true, so by the modelled forward-direction cache behavior the
forward artifact is rebuilt and, when a cache directory is given,
rewritten, whatever `overwrite_cache` the caller passed. -/
theorem claim_C10 (cd : Option String) (ow : Bool) (ec : BoolDict) (cw : WeightDict)
    (art : Artifact)
    (h : ¬(ow = false ∧ (farFileRu cd).isSome = true ∧ art ≠ Artifact.missing)) :
    initRu cd ow ec cw art =
      .ok ((buildRu ec cw).fst,
        (if (farFileRu cd).isSome = true then Artifact.stored (buildRu ec cw).fst else art),
        some ⟨"cased", false, cd, true⟩) ∧
    (ruTnArgs cd).overwriteCache = true ∧
    (ruTnArgs cd).cacheDir = cd ∧
    ∀ av : Bool, tnCacheEffect (ruTnArgs cd) av = (true, cd.isSome) := by
  refine ⟨?_, ?_, ?_, ?_⟩
  · simp only [initRu]
    rw [if_neg h]
    rfl
  · rfl
  · rfl
  · intro av
    rfl

/-- Claim C10 witness: instantiation at a missing far file with the
caller passing `overwrite_cache = false`. -/
theorem claim_C10_witness :
    initRu (some "cache") false [] [] Artifact.missing =
      .ok ((buildRu [] []).fst,
        (if (farFileRu (some "cache")).isSome = true
          then Artifact.stored (buildRu [] []).fst else Artifact.missing),
        some ⟨"cased", false, some "cache", true⟩) ∧
    (ruTnArgs (some "cache")).overwriteCache = true ∧
    (ruTnArgs (some "cache")).cacheDir = some "cache" ∧
    ∀ av : Bool, tnCacheEffect (ruTnArgs (some "cache")) av = (true, (some "cache").isSome) :=
  claim_C10 (some "cache") false [] [] Artifact.missing (by simp)

end NemoITN
